import Mathlib

/-!
Verification development for the background body-part segmentation service
(`backgroundSegmentation.js`, with its near-duplicate variant in the Electron
main process). The definitions below are a shallow embedding of that service:
its file filter, its fixed region table, the orientation heuristic, the
tensor allocation and dispose discipline of one processing call, and the
watcher/queue/worker state machine.
-/

namespace Confluences

/-! ## File filter (isImageFile) -/

/-- The basename of a path: the suffix after the last slash or backslash. -/
def baseNameChars (cs : List Char) : List Char :=
  cs.foldl (fun acc c => if c = '/' ∨ c = '\\' then [] else acc ++ [c]) []

/-- The suffix of a character list starting at its last dot, when there is one. -/
def lastDotSuffix : List Char → Option (List Char)
  | [] => none
  | c :: cs =>
    match lastDotSuffix cs with
    | some e => some e
    | none => if c = '.' then some (c :: cs) else none

/-- JS path.extname: the extension of the basename of the path, taken from its
last dot (inclusive); empty when the basename has no dot or when its only
last dot is the leading character of the basename. -/
def extnameOf (filePath : String) : String :=
  match baseNameChars filePath.toList with
  | [] => ""
  | _b0 :: rest =>
    match lastDotSuffix rest with
    | some e => String.mk e
    | none => ""

/-- ASCII lower-casing of one character, as toLowerCase acts on extensions. -/
def asciiLower (c : Char) : Char :=
  if 65 ≤ c.toNat ∧ c.toNat ≤ 90 then Char.ofNat (c.toNat + 32) else c

/-- isImageFile: accept exactly the fixed extension set, case-insensitively. -/
def isImageFile (filePath : String) : Bool :=
  let ext := String.mk ((extnameOf filePath).toList.map asciiLower)
  [".png", ".jpg", ".jpeg", ".bmp", ".tiff", ".webp"].contains ext

/-! ## Region table (extractBodyParts part groups) -/

/-- The fixed BodyPix part id table of extractBodyParts, in source order. -/
def partGroups : List (String × List Nat) :=
  [("head", [0, 1]),
   ("left_arm", [2, 3, 6, 7, 10]),
   ("right_arm", [4, 5, 8, 9, 11]),
   ("torso", [12, 13]),
   ("left_leg", [14, 15, 18, 19, 22]),
   ("right_leg", [16, 17, 20, 21, 23])]

/-! ## Orientation logic (processImage, lines 107-128)

The decoded buffer has shape (d0, d1, 3). It is transposed when its first
dimension exceeds the second, and the aspect heuristic then compares
width / height against 0.8 and 1.5. Width and height are natural numbers,
so the two float comparisons are embedded exactly as 5w < 4h and 2w > 3h. -/

/-- The shape reaching the aspect heuristic: the decoded shape, transposed
when shape 0 exceeds shape 1, as (height, width). -/
def canonShape (d0 d1 : Nat) : Nat × Nat := if d0 > d1 then (d1, d0) else (d0, d1)

/-- The three outcomes of the aspect heuristic. -/
inductive RotBranch
  | tallNarrow
  | wideFlat
  | noRot
deriving DecidableEq, Repr

/-- Which branch of the aspect heuristic fires on a (height, width) shape:
width / height < 0.8 gives tallNarrow, width / height > 1.5 gives wideFlat,
anything else leaves the buffer untouched. -/
def rotBranch (height width : Nat) : RotBranch :=
  if 5 * width < 4 * height then RotBranch.tallNarrow
  else if 2 * width > 3 * height then RotBranch.wideFlat
  else RotBranch.noRot

/-! ## Pixel-level view of the heuristic (for the buffer transformation) -/

/-- A pixel buffer in (height, width) order, one abstract sample per pixel. -/
def Img (h w : Nat) : Type := Fin h → Fin w → Nat

/-- tf.transpose with permutation [1, 0, 2]: swap the two spatial axes. -/
def transposeImg {h w : Nat} (img : Img h w) : Img w h := fun x y => img y x

/-- tf.reverse along axis 0: mirror along the height axis. -/
def reverseAxis0 {h w : Nat} (img : Img h w) : Img h w := fun y x => img y.rev x

/-- tf.reverse along axis 1: mirror along the width axis. -/
def reverseAxis1 {h w : Nat} (img : Img h w) : Img h w := fun y x => img y x.rev

/-- The rotated buffer produced by the aspect heuristic on an (h, w) buffer:
transpose then mirror along the width axis when width / height < 0.8,
transpose then mirror along the height axis when width / height > 1.5,
otherwise the buffer itself. Dimensions swap exactly on the two rotations. -/
def rotateHeuristic (h w : Nat) (img : Img h w) : Σ hh ww : Nat, Img hh ww :=
  if 5 * w < 4 * h then ⟨w, h, reverseAxis1 (transposeImg img)⟩
  else if 2 * w > 3 * h then ⟨w, h, reverseAxis0 (transposeImg img)⟩
  else ⟨h, w, img⟩

/-! ## Tensor lifecycle model of one processing call

Every tf operation that returns a tensor allocates a fresh buffer; dispose
releases it. Buffers are identified by allocation order. The model threads
the heap through processImage, extractBodyParts and saveBodyParts exactly
along the source control flow, including which dispose calls run on which
exit path. A thrown JS error is modelled as `some e` in the first component;
state accumulated before the throw survives, as it does in the source. -/

/-- The set of live tensors, with a fresh-id counter. -/
structure TensorHeap where
  next : Nat
  live : List Nat
deriving DecidableEq, Repr

/-- Allocate a fresh tensor, returning its id. -/
def TensorHeap.alloc (h : TensorHeap) : Nat × TensorHeap :=
  (h.next, ⟨h.next + 1, h.next :: h.live⟩)

/-- tensor.dispose(): releasing an already released tensor is a no-op. -/
def TensorHeap.dispose (h : TensorHeap) (id : Nat) : TensorHeap :=
  ⟨h.next, h.live.erase id⟩

/-- The mutable context of one processing call: the tensor heap plus the list
of region artifacts written to disk so far (in write order). -/
structure RunState where
  heap : TensorHeap
  written : List String
deriving DecidableEq, Repr

/-- The empty run state. -/
def runInit : RunState := ⟨⟨0, []⟩, []⟩

/-- The errors one processing call can throw. -/
inductive PErr
  | decodeFail
  | classifierFail
  | encodeFail (region : String)
deriving DecidableEq, Repr

/-- Failure injection for one processing call: the decoded shape, whether
decode succeeds, whether the classifier call resolves, whether the
segmentation result carries per-pixel part data, and whether PNG
encode/write succeeds for each region. -/
structure RunCfg where
  d0 : Nat
  d1 : Nat
  decodeOk : Bool
  classifierOk : Bool
  hasData : Bool
  encodeOk : String → Bool

/-- One group of extractBodyParts: groupMask starts as zerosLike(partMask)
cast to bool (two allocations), then each part id allocates an equality
mask and a new logical-or accumulator. The source never disposes the
superseded accumulators or the equality masks; only the final accumulator
is handed to the caller. -/
def extractGroup (ids : List Nat) (h : TensorHeap) : Nat × TensorHeap :=
  let (_zeros, h) := h.alloc
  let (gm0, h) := h.alloc
  ids.foldl
    (fun (acc : Nat × TensorHeap) _ =>
      let (_gm, h) := acc
      let (_eqMask, h) := h.alloc
      let (gmNext, h) := h.alloc
      (gmNext, h))
    (gm0, h)

/-- extractBodyParts: when the segmentation result has data, allocate the
partMask tensor3d and build one boolean mask per group, in table order;
when it has no data, return no masks at all. The partMask tensor is never
disposed. -/
def extractBodyParts (hasData : Bool) (h : TensorHeap) :
    List (String × Nat) × TensorHeap :=
  if hasData then
    let (_partMask, h) := h.alloc
    partGroups.foldl
      (fun (acc : List (String × Nat) × TensorHeap) g =>
        let (bps, h) := acc
        let (gm, h) := extractGroup g.2 h
        (bps ++ [(g.1, gm)], h))
      ([], h)
  else ([], h)

/-- One iteration of the saveBodyParts loop for one (region, mask) pair.
origShape is the shape of the re-decoded original (the vertical flip keeps
dimensions); maskShape is the squeezed mask shape. A transpose is allocated
when the original shape is the transpose of the mask shape; the two flip
reassignments allocate fresh tensors, the transpose and the first flip are
never disposed. On an encode/write failure the loop body throws before its
cleanup block, so nothing of this iteration is disposed and nothing is
written. -/
def saveRegion (encodeOk : String → Bool) (origShape maskShape : Nat × Nat)
    (originalImage : Nat) (part : String × Nat) (s : RunState) :
    Option PErr × RunState :=
  let partName := part.1
  let mask := part.2
  let (squeezedMask, h) := s.heap.alloc
  let (processedImage, h) :=
    if origShape.1 == maskShape.2 && origShape.2 == maskShape.1 then h.alloc
    else (originalImage, h)
  let (_flip0, h) := h.alloc
  let (flip1, h) := h.alloc
  let (mask3D, h) := h.alloc
  let (mask3DRepeated, h) := h.alloc
  let (cutoutImage, h) := h.alloc
  let _ := processedImage
  if encodeOk partName then
    let written := s.written ++ [partName]
    let h := h.dispose mask
    let h := if flip1 != originalImage then h.dispose flip1 else h
    let h := h.dispose squeezedMask
    let h := h.dispose mask3D
    let h := h.dispose mask3DRepeated
    let h := h.dispose cutoutImage
    (none, ⟨h, written⟩)
  else
    (some (PErr.encodeFail partName), ⟨h, s.written⟩)

/-- The for-of loop of saveBodyParts: write cutouts in order; a thrown error
aborts the remaining iterations. -/
def saveLoop (encodeOk : String → Bool) (origShape maskShape : Nat × Nat)
    (originalImage : Nat) :
    List (String × Nat) → RunState → Option PErr × RunState
  | [], s => (none, s)
  | part :: rest, s =>
    match saveRegion encodeOk origShape maskShape originalImage part s with
    | (none, s) => saveLoop encodeOk origShape maskShape originalImage rest s
    | (some e, s) => (some e, s)

/-- saveBodyParts: re-decode the original, flip it vertically (the decode
result is disposed, the flip replaces it), run the region loop, and dispose
the flipped original only when the loop completed; a throw inside the loop
skips that final dispose. -/
def saveBodyParts (cfg : RunCfg) (maskShape : Nat × Nat)
    (bodyParts : List (String × Nat)) (s : RunState) : Option PErr × RunState :=
  let (orig0, h) := s.heap.alloc
  let (tempImage, h) := h.alloc
  let h := h.dispose orig0
  let originalImage := tempImage
  let origShape := (cfg.d0, cfg.d1)
  match saveLoop cfg.encodeOk origShape maskShape originalImage bodyParts
      ⟨h, s.written⟩ with
  | (none, s) => (none, ⟨s.heap.dispose originalImage, s.written⟩)
  | (some e, s) => (some e, s)

/-- The decode-and-orient segment of processImage: allocate the decoded
image, transpose to canonical axis order when shape 0 exceeds shape 1,
then apply the aspect heuristic; each rotation branch allocates a
transpose that is never disposed plus the reverse that becomes the new
image, and when a rotation happened the previous image is disposed.
Returns the decoded tensor id, the final image tensor id, the final shape
and the heap. -/
def orientPhase (d0 d1 : Nat) (h0 : TensorHeap) :
    Nat × Nat × (Nat × Nat) × TensorHeap :=
  let (decodedImage, h) := h0.alloc
  let (image, h) :=
    if d0 > d1 then h.alloc
    else (decodedImage, h)
  let imgShape := canonShape d0 d1
  let height := imgShape.1
  let width := imgShape.2
  let (rotatedImage, rotShape, h) :=
    match rotBranch height width with
    | RotBranch.tallNarrow =>
      let (_t, h) := h.alloc
      let (r, h) := h.alloc
      (r, (width, height), h)
    | RotBranch.wideFlat =>
      let (_t, h) := h.alloc
      let (r, h) := h.alloc
      (r, (width, height), h)
    | RotBranch.noRot => (image, imgShape, h)
  let (image, h) :=
    if rotatedImage != image then (rotatedImage, h.dispose image)
    else (image, h)
  (decodedImage, image, rotShape, h)

/-- processImage: decode and orient, run the classifier, extract the masks,
save the cutouts, and finally run the success-path cleanup. A throw at any
point skips everything after it, including the cleanup. -/
def processImage (cfg : RunCfg) (s : RunState) : Option PErr × RunState :=
  if !cfg.decodeOk then (some PErr.decodeFail, s)
  else
    let (decodedImage, image, rotShape, h) := orientPhase cfg.d0 cfg.d1 s.heap
    if !cfg.classifierOk then (some PErr.classifierFail, ⟨h, s.written⟩)
    else
      let maskShape := rotShape
      let (bodyParts, h) := extractBodyParts cfg.hasData h
      match saveBodyParts cfg maskShape bodyParts ⟨h, s.written⟩ with
      | (some e, s) => (some e, s)
      | (none, s) =>
        let h := s.heap.dispose decodedImage
        let h := if image != decodedImage then h.dispose image else h
        (none, ⟨h, s.written⟩)

/-! ## Watcher, queue and worker (startWatching, addToQueue, processQueue)

JS runs the service single-threaded: an async function executes
synchronously until its first await. The machine below therefore takes two
kinds of atomic steps, each covering one synchronous segment of the source:
a watcher add callback (which may start the worker and run the loop up to
its first await), and the resolution of the awaited processImage call
(which runs the loop onward up to the next await or to loop exit). Queue
entries carry the file path; the output directory of an entry plays no role
in the control flow and is omitted. The workers field is instrumentation:
it counts how many processQueue invocations are currently inside the while
loop. -/

/-- The service state: the pending queue, the processed-files set (a JS Set,
modelled as a duplicate-free list in insertion order), the isProcessing
flag, the number of running worker loops, and the path the worker is
currently awaiting processImage on, if any. -/
structure SvcState where
  processingQueue : List String
  processedFiles : List String
  isProcessing : Bool
  workers : Nat
  activeFile : Option String
deriving DecidableEq, Repr

/-- Observable worker outcomes, for counting completions per path. -/
inductive WOut
  | processedOk (p : String)
  | processFailed (p : String)
deriving DecidableEq, Repr

/-- The synchronous part of the worker loop: shift entries, skipping paths
already in processedFiles, until an unprocessed path is found (the worker
then awaits processImage on it) or the queue is empty (the loop exits).
Returns the path the worker parks on, and the queue that remains. -/
def drainToNext (processed : List String) : List String → Option String × List String
  | [] => (none, [])
  | p :: rest => if p ∈ processed then drainToNext processed rest else (some p, rest)

/-- processQueue: returns at once when a worker is already running or no work
is queued; otherwise it marks processing, increments the running-loop count,
and drains synchronously to the first await or to loop exit. -/
def processQueue (σ : SvcState) : SvcState :=
  if σ.isProcessing || σ.processingQueue.isEmpty then σ
  else
    match drainToNext σ.processedFiles σ.processingQueue with
    | (none, _) => { σ with processingQueue := [], isProcessing := false }
    | (some p, rest) =>
      { σ with processingQueue := rest, isProcessing := true,
               workers := σ.workers + 1, activeFile := some p }

/-- addToQueue: push the path, then invoke processQueue. -/
def addToQueue (filePath : String) (σ : SvcState) : SvcState :=
  processQueue { σ with processingQueue := σ.processingQueue ++ [filePath] }

/-- The watcher add handler: enqueue image files that are not yet marked
processed; there is no check against the pending queue itself. -/
def onAdd (filePath : String) (σ : SvcState) : SvcState :=
  if isImageFile filePath && !(σ.processedFiles.contains filePath) then
    addToQueue filePath σ
  else σ

/-- Resolution of the awaited processImage call for the active path: on
success the path is added to processedFiles, on failure the error is caught
and logged and processedFiles is untouched; either way the loop continues
synchronously with the remaining entries or exits. -/
def onFinish (ok : Bool) (σ : SvcState) : SvcState × List WOut :=
  match σ.activeFile with
  | none => (σ, [])
  | some p =>
    let processed := if ok then σ.processedFiles ++ [p] else σ.processedFiles
    let out := if ok then [WOut.processedOk p] else [WOut.processFailed p]
    match drainToNext processed σ.processingQueue with
    | (none, _) =>
      ({ processingQueue := [], processedFiles := processed, isProcessing := false,
         workers := σ.workers - 1, activeFile := none }, out)
    | (some q, rest) =>
      ({ processingQueue := rest, processedFiles := processed, isProcessing := true,
         workers := σ.workers, activeFile := some q }, out)

/-- The two kinds of atomic events the machine takes. -/
inductive SvcEv
  | add (filePath : String)
  | finish (ok : Bool)

/-- One atomic step, with its observable outputs. -/
def svcStep (e : SvcEv) (σ : SvcState) : SvcState × List WOut :=
  match e with
  | SvcEv.add p => (onAdd p σ, [])
  | SvcEv.finish ok => onFinish ok σ

/-- The state of a freshly constructed service. -/
def svcInit : SvcState := ⟨[], [], false, 0, none⟩

/-- Run a list of events from a state, accumulating outputs. -/
def runFrom (σ : SvcState) : List SvcEv → SvcState × List WOut
  | [] => (σ, [])
  | e :: evs =>
    let r := svcStep e σ
    let rr := runFrom r.1 evs
    (rr.1, r.2 ++ rr.2)

/-- Run a list of events from the initial state. -/
def svcRun (evs : List SvcEv) : SvcState × List WOut := runFrom svcInit evs

/-- Completed-successfully count of a path in an output log. -/
def okCount (p : String) (outs : List WOut) : Nat :=
  outs.countP (fun o => decide (o = WOut.processedOk p))

/-- The structural invariant of the service state: the running-loop count is
one exactly while isProcessing, the worker is parked on a file exactly
while isProcessing, and a parked file is never already marked processed. -/
def SvcInv (σ : SvcState) : Prop :=
  σ.workers = (if σ.isProcessing then 1 else 0)
  ∧ σ.activeFile.isSome = σ.isProcessing
  ∧ σ.activeFile.all (fun p => !(σ.processedFiles.contains p)) = true

instance (σ : SvcState) : Decidable (SvcInv σ) := by
  unfold SvcInv; infer_instance

/-! ## Helper lemmas on the worker machine -/

lemma drainToNext_some_spec (processed : List String) :
    ∀ (q : List String) (p : String) (rest : List String),
      drainToNext processed q = (some p, rest) →
      ∃ pre, q = pre ++ p :: rest ∧ (∀ x ∈ pre, x ∈ processed) ∧ p ∉ processed
  | [], p, rest => by simp [drainToNext]
  | a :: q, p, rest => by
    simp only [drainToNext]
    split
    · rename_i hmemA
      intro hres
      obtain ⟨pre, hq, hpre, hp⟩ := drainToNext_some_spec processed q p rest hres
      refine ⟨a :: pre, by simp [hq], ?_, hp⟩
      intro x hx
      rcases List.mem_cons.mp hx with rfl | hx
      · exact hmemA
      · exact hpre x hx
    · intro hres
      rename_i hmem
      obtain ⟨h1, h2⟩ := Prod.mk.injEq .. ▸ hres
      cases h1
      exact ⟨[], by simp [h2], by simp, hmem⟩

lemma processQueue_processedFiles (σ : SvcState) :
    (processQueue σ).processedFiles = σ.processedFiles := by
  unfold processQueue
  split
  · rfl
  · split <;> rfl

lemma svcInv_processQueue {σ : SvcState} (h : SvcInv σ) : SvcInv (processQueue σ) := by
  obtain ⟨hw, ha, hap⟩ := h
  unfold processQueue
  split
  · exact ⟨hw, ha, hap⟩
  · rename_i hcond
    have hproc : σ.isProcessing = false := by
      cases hb : σ.isProcessing
      · rfl
      · simp [hb] at hcond
    have hnone : σ.activeFile = none := by
      cases hb : σ.activeFile
      · rfl
      · rw [hb, hproc] at ha
        simp at ha
    split
    · exact ⟨by simp [hproc, hw], by simp [hnone, hproc, ha], by simp [hnone]⟩
    · rename_i p rest hdrain
      obtain ⟨pre, _, _, hp⟩ := drainToNext_some_spec σ.processedFiles _ p rest hdrain
      refine ⟨by simp [hw, hproc], by simp, ?_⟩
      simp [Option.all, hp]

lemma svcInv_onAdd (p : String) {σ : SvcState} (h : SvcInv σ) : SvcInv (onAdd p σ) := by
  unfold onAdd addToQueue
  split
  · exact svcInv_processQueue h
  · exact h

lemma svcInv_onFinish (ok : Bool) {σ : SvcState} (h : SvcInv σ) :
    SvcInv (onFinish ok σ).1 := by
  obtain ⟨hw, ha, hap⟩ := h
  rcases hact : σ.activeFile with _ | p
  · simpa [onFinish, hact] using ⟨hw, hact ▸ ha, hact ▸ hap⟩
  · have hproc : σ.isProcessing = true := by rw [← ha, hact]; rfl
    simp only [onFinish, hact]
    split
    · exact ⟨by simp [hw, hproc], by simp, by simp⟩
    · rename_i q rest hdrain
      obtain ⟨pre, _, _, hq⟩ := drainToNext_some_spec _ _ q rest hdrain
      exact ⟨by simp [hw, hproc], by simp, by simp [Option.all, hq]⟩

lemma svcInv_step (e : SvcEv) {σ : SvcState} (h : SvcInv σ) : SvcInv (svcStep e σ).1 := by
  cases e with
  | add p => exact svcInv_onAdd p h
  | finish ok => exact svcInv_onFinish ok h

lemma svcInv_runFrom : ∀ (evs : List SvcEv) {σ : SvcState}, SvcInv σ →
    SvcInv (runFrom σ evs).1
  | [], _, h => h
  | e :: evs, σ, h => by
    simpa [runFrom] using svcInv_runFrom evs (svcInv_step e h)

lemma svcInv_init : SvcInv svcInit := by decide

lemma onAdd_processedFiles (p : String) (σ : SvcState) :
    (onAdd p σ).processedFiles = σ.processedFiles := by
  unfold onAdd addToQueue
  split
  · exact processQueue_processedFiles _
  · rfl

lemma onFinish_none (ok : Bool) {σ : SvcState} (hact : σ.activeFile = none) :
    onFinish ok σ = (σ, []) := by
  simp [onFinish, hact]

lemma onFinish_some (ok : Bool) {σ : SvcState} {p : String}
    (hact : σ.activeFile = some p) :
    (onFinish ok σ).2 = [if ok then WOut.processedOk p else WOut.processFailed p]
    ∧ (onFinish ok σ).1.processedFiles
        = (if ok then σ.processedFiles ++ [p] else σ.processedFiles) := by
  simp only [onFinish, hact]
  split <;> cases ok <;> simp

lemma step_processedFiles_mono (e : SvcEv) (σ : SvcState) :
    ∀ x ∈ σ.processedFiles, x ∈ (svcStep e σ).1.processedFiles := by
  intro x hx
  cases e with
  | add p => simpa [svcStep, onAdd_processedFiles] using hx
  | finish ok =>
    rcases hact : σ.activeFile with _ | p
    · simpa [svcStep, onFinish_none ok hact] using hx
    · have := (onFinish_some ok hact).2
      simp only [svcStep, this]
      split <;> simp [hx]

lemma okCount_append (p : String) (a b : List WOut) :
    okCount p (a ++ b) = okCount p a + okCount p b := by
  simp [okCount, List.countP_append]

lemma okCount_zero_of_processed (p : String) :
    ∀ (evs : List SvcEv) (σ : SvcState), SvcInv σ → p ∈ σ.processedFiles →
      okCount p (runFrom σ evs).2 = 0
  | [], σ, _, _ => by simp [runFrom, okCount]
  | e :: evs, σ, hinv, hmem => by
    have hrec := okCount_zero_of_processed p evs (svcStep e σ).1
      (svcInv_step e hinv) (step_processedFiles_mono e σ p hmem)
    simp only [runFrom, okCount_append, hrec, Nat.add_zero]
    cases e with
    | add q => simp [svcStep, okCount]
    | finish ok =>
      rcases hact : σ.activeFile with _ | q
      · simp [svcStep, onFinish_none ok hact, okCount]
      · have hout := (onFinish_some ok hact).1
        have hq : ¬ q ∈ σ.processedFiles := by
          have := hinv.2.2
          rw [hact] at this
          simpa [Option.all] using this
        have hqp : q ≠ p := fun hqp => hq (hqp ▸ hmem)
        simp only [svcStep, hout]
        cases ok <;> simp [okCount, hqp]

lemma okCount_le_one (p : String) :
    ∀ (evs : List SvcEv) (σ : SvcState), SvcInv σ →
      okCount p (runFrom σ evs).2 ≤ 1
  | [], σ, _ => by simp [runFrom, okCount]
  | e :: evs, σ, hinv => by
    simp only [runFrom, okCount_append]
    cases e with
    | add q =>
      have hrec := okCount_le_one p evs (svcStep (SvcEv.add q) σ).1
        (svcInv_step (SvcEv.add q) hinv)
      simpa [svcStep, okCount] using hrec
    | finish ok =>
      rcases hact : σ.activeFile with _ | q
      · have hrec := okCount_le_one p evs (svcStep (SvcEv.finish ok) σ).1
          (svcInv_step (SvcEv.finish ok) hinv)
        simpa [svcStep, onFinish_none ok hact, okCount] using hrec
      · have hout := (onFinish_some ok hact).1
        by_cases hqp : ok = true ∧ q = p
        · obtain ⟨hok, rfl⟩ := hqp
          have hmem : q ∈ (onFinish ok σ).1.processedFiles := by
            rw [(onFinish_some ok hact).2, hok]
            simp
          have hrec := okCount_zero_of_processed q evs (svcStep (SvcEv.finish ok) σ).1
            (svcInv_step (SvcEv.finish ok) hinv) (by simpa [svcStep] using hmem)
          simp only [svcStep] at hrec ⊢
          rw [hrec, hout, hok]
          simp [okCount]
        · have hrec := okCount_le_one p evs (svcStep (SvcEv.finish ok) σ).1
            (svcInv_step (SvcEv.finish ok) hinv)
          have hzero : okCount p (onFinish ok σ).2 = 0 := by
            rw [hout]
            cases ok with
            | false => simp [okCount]
            | true =>
              have : q ≠ p := fun hq => hqp ⟨rfl, hq⟩
              simp [okCount, this]
          simp only [svcStep] at hrec ⊢
          rw [hzero]
          simpa using hrec

/-! ## Helper lemmas on the compose/save step -/

lemma saveRegion_spec (encodeOk : String → Bool) (os ms : Nat × Nat) (oi : Nat)
    (part : String × Nat) (s : RunState) :
    (saveRegion encodeOk os ms oi part s).2.written
      = (if encodeOk part.1 then s.written ++ [part.1] else s.written)
    ∧ (saveRegion encodeOk os ms oi part s).1
      = (if encodeOk part.1 then none else some (PErr.encodeFail part.1)) := by
  unfold saveRegion
  dsimp only [TensorHeap.alloc]
  split <;> split <;> simp_all

lemma saveLoop_spec (encodeOk : String → Bool) (os ms : Nat × Nat) (oi : Nat) :
    ∀ (parts : List (String × Nat)) (s : RunState),
      (saveLoop encodeOk os ms oi parts s).2.written
        = s.written ++ (parts.takeWhile (fun b => encodeOk b.1)).map (fun b => b.1)
      ∧ (saveLoop encodeOk os ms oi parts s).1
        = (parts.find? (fun b => !(encodeOk b.1))).map (fun b => PErr.encodeFail b.1)
  | [], s => by simp [saveLoop]
  | part :: rest, s => by
    obtain ⟨hw, he⟩ := saveRegion_spec encodeOk os ms oi part s
    by_cases hok : encodeOk part.1
    · rw [if_pos hok] at hw
      rw [if_pos hok] at he
      rcases hres : saveRegion encodeOk os ms oi part s with ⟨e, s1⟩
      rw [hres] at hw he
      dsimp at hw he
      subst he
      obtain ⟨ihw, ihe⟩ := saveLoop_spec encodeOk os ms oi rest s1
      simp [saveLoop, hres, ihw, ihe, hw, List.takeWhile_cons, hok, List.find?]
    · rw [if_neg hok] at hw
      rw [if_neg hok] at he
      rcases hres : saveRegion encodeOk os ms oi part s with ⟨e, s1⟩
      rw [hres] at hw he
      dsimp at hw he
      subst he
      simp [saveLoop, hres, hw, List.takeWhile_cons, hok, List.find?]

lemma saveLoop_spec_res {eo : String → Bool} {os ms : Nat × Nat} {oi : Nat}
    {parts : List (String × Nat)} {s : RunState} {e : Option PErr} {s1 : RunState}
    (hres : saveLoop eo os ms oi parts s = (e, s1)) :
    s1.written = s.written ++ (parts.takeWhile (fun b => eo b.1)).map (fun b => b.1)
    ∧ e = (parts.find? (fun b => !(eo b.1))).map (fun b => PErr.encodeFail b.1) := by
  obtain ⟨hw, he⟩ := saveLoop_spec eo os ms oi parts s
  rw [hres] at hw he
  exact ⟨hw, he⟩

lemma saveRegion_shape_congr (eo : String → Bool) (os ms os2 ms2 : Nat × Nat)
    (oi : Nat) (part : String × Nat) (s : RunState)
    (h : ((os.1 == ms.2) && (os.2 == ms.1)) = false)
    (h2 : ((os2.1 == ms2.2) && (os2.2 == ms2.1)) = false) :
    saveRegion eo os ms oi part s = saveRegion eo os2 ms2 oi part s := by
  unfold saveRegion
  rw [h, h2]

lemma saveLoop_shape_congr (eo : String → Bool) (os ms os2 ms2 : Nat × Nat)
    (oi : Nat)
    (h : ((os.1 == ms.2) && (os.2 == ms.1)) = false)
    (h2 : ((os2.1 == ms2.2) && (os2.2 == ms2.1)) = false) :
    ∀ (parts : List (String × Nat)) (s : RunState),
      saveLoop eo os ms oi parts s = saveLoop eo os2 ms2 oi parts s
  | [], _ => rfl
  | part :: rest, s => by
    simp only [saveLoop]
    rw [saveRegion_shape_congr eo os ms os2 ms2 oi part s h h2]
    rcases hsr : saveRegion eo os2 ms2 oi part s with ⟨e, s1⟩
    cases e with
    | none => exact saveLoop_shape_congr eo os ms os2 ms2 oi h h2 rest s1
    | some e => rfl

lemma saveBodyParts_shape_congr (cfg cfg2 : RunCfg) (ms ms2 : Nat × Nat)
    (parts : List (String × Nat)) (s : RunState)
    (heo : cfg.encodeOk = cfg2.encodeOk)
    (h : ((cfg.d0 == ms.2) && (cfg.d1 == ms.1)) = false)
    (h2 : ((cfg2.d0 == ms2.2) && (cfg2.d1 == ms2.1)) = false) :
    saveBodyParts cfg ms parts s = saveBodyParts cfg2 ms2 parts s := by
  unfold saveBodyParts
  dsimp only [TensorHeap.alloc]
  rw [heo, saveLoop_shape_congr cfg2.encodeOk (cfg.d0, cfg.d1) ms (cfg2.d0, cfg2.d1)
    ms2 (s.heap.next + 1) h h2 parts]

lemma orientPhase_pinned (d0 d1 : Nat) (hc1 : ¬ d0 > d1) (hc3 : ¬ 2 * d1 > 3 * d0) :
    orientPhase d0 d1 ⟨0, []⟩ = (0, 0, (d0, d1), ⟨1, [0]⟩) := by
  have hc2 : ¬ 5 * d1 < 4 * d0 := by omega
  simp [orientPhase, canonShape, rotBranch, TensorHeap.alloc, TensorHeap.dispose,
    hc1, hc2, hc3]

lemma processImage_noRot (d0 d1 : Nat) (cls hd : Bool) (eo : String → Bool)
    (hc1 : ¬ d0 > d1) (hc3 : ¬ 2 * d1 > 3 * d0) :
    processImage ⟨d0, d1, true, cls, hd, eo⟩ runInit =
      if !cls then (some PErr.classifierFail, ⟨⟨1, [0]⟩, []⟩)
      else
        match saveBodyParts ⟨d0, d1, true, cls, hd, eo⟩ (d0, d1)
            (extractBodyParts hd ⟨1, [0]⟩).1
            ⟨(extractBodyParts hd ⟨1, [0]⟩).2, []⟩ with
        | (some e, s) => (some e, s)
        | (none, s) => (none, ⟨s.heap.dispose 0, s.written⟩) := by
  unfold processImage
  dsimp only [runInit]
  rw [orientPhase_pinned d0 d1 hc1 hc3]
  dsimp only
  simp only [Bool.not_true, Bool.false_eq_true, if_false, bne_self_eq_false]

/-! ## Helper lemma on enqueue during an active worker -/

lemma onAdd_while_processing (σ : SvcState) (p : String)
    (hproc : σ.isProcessing = true) :
    onAdd p σ = { σ with processingQueue :=
      if (isImageFile p && !(σ.processedFiles.contains p))
      then σ.processingQueue ++ [p] else σ.processingQueue } := by
  unfold onAdd addToQueue processQueue
  cases hguard : (isImageFile p && !(σ.processedFiles.contains p)) with
  | true => simp [hguard, hproc]
  | false => simp [hguard]

/-! ## Claims -/

/-- C4: the six fixed region groups (head, left arm, right arm, torso, left
leg, right leg) partition the label domain 0..23 exactly: every label id
below 24 belongs to exactly one group of the table. -/
theorem partGroups_partition_label_domain :
    ∀ n < 24, partGroups.countP (fun g => g.2.contains n) = 1 := by decide

/-- Witness for C4 at label id 12 (torso). -/
theorem partGroups_partition_label_domain_wit :
    partGroups.countP (fun g => g.2.contains 12) = 1 :=
  partGroups_partition_label_domain 12 (by decide)

/-- C10: after the canonicalizing transpose the buffer satisfies
height less or equal width, so the tall-narrow branch of the aspect
heuristic (width / height below 0.8) can never fire in the pipeline; only
the wide-flat branch or the no-op branch is reachable. -/
theorem tallNarrow_branch_unreachable (d0 d1 : Nat) :
    (canonShape d0 d1).1 ≤ (canonShape d0 d1).2
    ∧ rotBranch (canonShape d0 d1).1 (canonShape d0 d1).2 ≠ RotBranch.tallNarrow := by
  unfold canonShape rotBranch
  rcases Nat.lt_or_ge d1 d0 with hlt | hge
  · rw [if_pos hlt]
    refine ⟨by omega, ?_⟩
    rw [if_neg (by omega)]
    split <;> decide
  · rw [if_neg (by omega)]
    refine ⟨by omega, ?_⟩
    rw [if_neg (by omega)]
    split <;> decide

/-- C8: the orientation heuristic is three-way exhaustive on the aspect
value width / height of the canonical buffer: below 0.8 it transposes and
mirrors along the width axis, above 1.5 it transposes and mirrors along
the height axis, otherwise it returns the buffer unchanged; the shapes
with aspect 0.5, 2.0 and 1.0 take the first, second and neither branch
respectively. -/
theorem rotateHeuristic_three_way (h w : Nat) (img : Img h w) :
    (5 * w < 4 * h → rotateHeuristic h w img = ⟨w, h, reverseAxis1 (transposeImg img)⟩)
    ∧ (¬ 5 * w < 4 * h → 2 * w > 3 * h →
        rotateHeuristic h w img = ⟨w, h, reverseAxis0 (transposeImg img)⟩)
    ∧ (¬ 5 * w < 4 * h → ¬ 2 * w > 3 * h → rotateHeuristic h w img = ⟨h, w, img⟩)
    ∧ rotBranch 2 1 = RotBranch.tallNarrow
    ∧ rotBranch 1 2 = RotBranch.wideFlat
    ∧ rotBranch 1 1 = RotBranch.noRot := by
  refine ⟨?_, ?_, ?_, by decide, by decide, by decide⟩
  · intro h1
    simp [rotateHeuristic, h1]
  · intro h1 h2
    simp [rotateHeuristic, h1, h2]
  · intro h1 h2
    simp [rotateHeuristic, h1, h2]

/-- Witness for C8: the three concrete shapes of the claim, with a constant
one-pixel buffer. -/
theorem rotateHeuristic_three_way_wit :
    rotateHeuristic 2 1 (fun _ _ => 0)
        = ⟨1, 2, reverseAxis1 (transposeImg (fun _ _ => 0))⟩
    ∧ rotateHeuristic 1 2 (fun _ _ => 0)
        = ⟨2, 1, reverseAxis0 (transposeImg (fun _ _ => 0))⟩
    ∧ rotateHeuristic 1 1 (fun _ _ => 0) = ⟨1, 1, fun _ _ => 0⟩ :=
  ⟨(rotateHeuristic_three_way 2 1 _).1 (by decide),
   (rotateHeuristic_three_way 1 2 _).2.1 (by decide) (by decide),
   (rotateHeuristic_three_way 1 1 _).2.2.1 (by decide) (by decide)⟩

/-- C1 counterexample: with every region succeeding except torso, a full
processing run throws on the torso region, the first three regions (head,
left arm, right arm) are on disk, and the two remaining regions (left leg,
right leg) are never written — the failure of one region does prevent the
remaining regions from being written. -/
theorem saveBodyParts_torso_fail_aborts_rest :
    (processImage ⟨2, 3, true, true, true, fun r => r != "torso"⟩ runInit).1
        = some (PErr.encodeFail "torso")
    ∧ (processImage ⟨2, 3, true, true, true, fun r => r != "torso"⟩ runInit).2.written
        = ["head", "left_arm", "right_arm"]
    ∧ "left_leg" ∉
        (processImage ⟨2, 3, true, true, true, fun r => r != "torso"⟩ runInit).2.written
    ∧ "right_leg" ∉
        (processImage ⟨2, 3, true, true, true, fun r => r != "torso"⟩ runInit).2.written := by
  decide

/-- C1 amended: the compose/save step walks the regions in table order and
stops at the first region whose encode or write fails, propagating that
error to the per-file handler; exactly the regions strictly before the
first failing one are written (already written artifacts stay, no region
after the failure is produced). -/
theorem saveBodyParts_written_upto_first_failure (cfg : RunCfg)
    (maskShape : Nat × Nat) (parts : List (String × Nat)) (s : RunState) :
    (saveBodyParts cfg maskShape parts s).2.written
      = s.written ++ (parts.takeWhile (fun b => cfg.encodeOk b.1)).map (fun b => b.1)
    ∧ (saveBodyParts cfg maskShape parts s).1
      = (parts.find? (fun b => !(cfg.encodeOk b.1))).map (fun b => PErr.encodeFail b.1) := by
  unfold saveBodyParts
  dsimp only [TensorHeap.alloc]
  split
  · rename_i s1 hres
    obtain ⟨hw, he⟩ := saveLoop_spec_res hres
    exact ⟨hw, he⟩
  · rename_i e s1 hres
    obtain ⟨hw, he⟩ := saveLoop_spec_res hres
    exact ⟨hw, he⟩

/-- C2 counterexample: a second add event for a path that is still queued
and not yet processed does append a second queue entry — the handler checks
processedFiles but never the pending queue itself. -/
theorem onAdd_duplicate_while_queued_appends_again :
    (onAdd "/captures/a.png"
        ⟨["/captures/a.png"], [], true, 1, some "/captures/b.png"⟩).processingQueue
      = ["/captures/a.png", "/captures/a.png"] := by decide

/-- C2 amended: while the worker is running, the add handler appends the
path to the pending queue exactly when the path is an image file and is not
already marked processed — whether or not it is already queued; duplicates
of an unprocessed path are filtered out only later, at dequeue time, and
only once the first entry completed successfully. -/
theorem onAdd_appends_iff_image_and_unprocessed (σ : SvcState) (p : String)
    (hproc : σ.isProcessing = true) :
    onAdd p σ = { σ with processingQueue :=
      if (isImageFile p && !(σ.processedFiles.contains p))
      then σ.processingQueue ++ [p] else σ.processingQueue } :=
  onAdd_while_processing σ p hproc

/-- Witness for C2 amended: a fresh image path is appended while the worker
runs, and the rest of the state is untouched. -/
theorem onAdd_appends_iff_image_and_unprocessed_wit :
    onAdd "/captures/c.png" ⟨["/captures/a.png"], [], true, 1, some "/captures/b.png"⟩
      = ⟨["/captures/a.png", "/captures/c.png"], [], true, 1, some "/captures/b.png"⟩ := by
  rw [onAdd_appends_iff_image_and_unprocessed _ _ rfl]
  decide

/-- C3 counterexample: a fully successful processing run (decode, classify,
segmentation data present, all six regions encoded and written) returns
with a non-empty set of live tensors: the intermediate buffers of mask
construction and of the flip operations are never released, so not every
transient buffer is released before the call returns even on the success
path. -/
theorem processImage_success_leaves_live_tensors :
    (processImage ⟨2, 3, true, true, true, fun _ => true⟩ runInit).1 = none
    ∧ (processImage ⟨2, 3, true, true, true, fun _ => true⟩ runInit).2.heap.live ≠ [] := by
  decide

/-- C3 amended: buffers are released only by the dispose calls that the
success path actually reaches. When the classifier call throws, the
cleanup is skipped entirely and the decoded image (the first allocation)
is left live. When the call succeeds, the explicitly disposed buffers
(decoded image among them) are released, but the label-map tensor (the
second allocation here) and the other intermediate tensors are never
disposed, so the live set is non-empty on return. Stated for canonical
non-square shapes that take no rotation branch. -/
theorem processImage_dispose_only_on_success_path (d0 d1 : Nat)
    (encodeOk : String → Bool) (hle : d0 ≤ d1) (hwide : 2 * d1 ≤ 3 * d0)
    (hne : d0 ≠ d1) :
    processImage ⟨d0, d1, true, false, true, encodeOk⟩ runInit
      = (some PErr.classifierFail, ⟨⟨1, [0]⟩, []⟩)
    ∧ (processImage ⟨d0, d1, true, true, true, fun _ => true⟩ runInit).1 = none
    ∧ 1 ∈ (processImage ⟨d0, d1, true, true, true, fun _ => true⟩ runInit).2.heap.live
    ∧ 0 ∉ (processImage ⟨d0, d1, true, true, true, fun _ => true⟩ runInit).2.heap.live
    ∧ (processImage ⟨d0, d1, true, true, true, fun _ => true⟩ runInit).2.written
      = ["head", "left_arm", "right_arm", "torso", "left_leg", "right_leg"] := by
  have hc1 : ¬ d0 > d1 := by omega
  have hc2 : ¬ 5 * d1 < 4 * d0 := by omega
  have hc3 : ¬ 2 * d1 > 3 * d0 := by omega
  have hc4 : (d0 == d1) = false := by simp [hne]
  have hcond : ((d0 == d1) && (d1 == d0)) = false := by simp [hc4]
  have hrun : processImage ⟨d0, d1, true, true, true, fun _ => true⟩ runInit
      = processImage ⟨2, 3, true, true, true, fun _ => true⟩ runInit := by
    rw [processImage_noRot d0 d1 true true (fun _ => true) hc1 hc3,
      processImage_noRot 2 3 true true (fun _ => true) (by omega) (by omega),
      saveBodyParts_shape_congr ⟨d0, d1, true, true, true, fun _ => true⟩
        ⟨2, 3, true, true, true, fun _ => true⟩ (d0, d1) (2, 3)
        (extractBodyParts true ⟨1, [0]⟩).1 _ rfl hcond (by decide)]
  refine ⟨?_, ?_, ?_, ?_, ?_⟩
  · rw [processImage_noRot d0 d1 false true encodeOk hc1 hc3]
    rfl
  · rw [hrun]; decide
  · rw [hrun]; decide
  · rw [hrun]; decide
  · rw [hrun]; decide

/-- Witness for C3 amended at shape (2, 3). -/
theorem processImage_dispose_only_on_success_path_wit :
    processImage ⟨2, 3, true, false, true, fun _ => true⟩ runInit
      = (some PErr.classifierFail, ⟨⟨1, [0]⟩, []⟩) :=
  (processImage_dispose_only_on_success_path 2 3 (fun _ => true) (by decide)
    (by decide) (by decide)).1

/-- C7 counterexample: when the classifier call resolves but its result has
no per-pixel part data, processing does not fail at all: it returns
normally with zero artifacts written, and a normally returning run is then
marked processed by the worker — no ClassifierError is raised and the file
is not skipped as a recoverable failure. -/
theorem processImage_no_data_succeeds_and_writes_nothing :
    (processImage ⟨2, 3, true, true, false, fun _ => true⟩ runInit).1 = none
    ∧ (processImage ⟨2, 3, true, true, false, fun _ => true⟩ runInit).2.written = []
    ∧ (onFinish true ⟨[], [], true, 1, some "/captures/x.png"⟩).1.processedFiles
        = ["/captures/x.png"] := by decide

/-- C7 amended: when the segmentation result has no data field,
extractBodyParts returns an empty region map, the save step writes nothing,
and the processing call returns normally, so the worker marks the file
processed; an error (the per-file recoverable failure of the claim) arises
only when the classifier call itself throws. Stated for canonical shapes
that take no rotation branch. -/
theorem processImage_missing_data_is_silent_skip (d0 d1 : Nat)
    (encodeOk : String → Bool) (hc1 : ¬ d0 > d1) (hc3 : ¬ 2 * d1 > 3 * d0)
    (h : TensorHeap) :
    extractBodyParts false h = ([], h)
    ∧ (processImage ⟨d0, d1, true, true, false, encodeOk⟩ runInit).1 = none
    ∧ (processImage ⟨d0, d1, true, true, false, encodeOk⟩ runInit).2.written = []
    ∧ (processImage ⟨d0, d1, true, false, false, encodeOk⟩ runInit).1
        = some PErr.classifierFail
    ∧ (onFinish true ⟨[], [], true, 1, some "/captures/x.png"⟩).1.processedFiles
        = ["/captures/x.png"] := by
  refine ⟨rfl, ?_, ?_, ?_, by decide⟩
  · rw [processImage_noRot d0 d1 true false encodeOk hc1 hc3]
    rfl
  · rw [processImage_noRot d0 d1 true false encodeOk hc1 hc3]
    rfl
  · rw [processImage_noRot d0 d1 false false encodeOk hc1 hc3]
    rfl

/-- Witness for C7 amended at shape (2, 3). -/
theorem processImage_missing_data_is_silent_skip_wit :
    (processImage ⟨2, 3, true, true, false, fun _ => true⟩ runInit).1 = none
    ∧ (processImage ⟨2, 3, true, true, false, fun _ => true⟩ runInit).2.written
        = [] :=
  ⟨(processImage_missing_data_is_silent_skip 2 3 (fun _ => true) (by decide)
      (by decide) ⟨0, []⟩).2.1,
   (processImage_missing_data_is_silent_skip 2 3 (fun _ => true) (by decide)
      (by decide) ⟨0, []⟩).2.2.1⟩

/-- C5: processing is idempotent per path: the processed-files set only
grows across any step, and over any event trace from the initial state a
path is reported successfully processed at most once; one successful run
writes exactly one set of six artifacts. -/
theorem processing_idempotent_per_path :
    (∀ (e : SvcEv) (σ : SvcState) (x : String),
        x ∈ σ.processedFiles → x ∈ (svcStep e σ).1.processedFiles)
    ∧ (∀ (evs : List SvcEv) (p : String), okCount p (svcRun evs).2 ≤ 1)
    ∧ (processImage ⟨2, 3, true, true, true, fun _ => true⟩ runInit).2.written
        = ["head", "left_arm", "right_arm", "torso", "left_leg", "right_leg"] := by
  refine ⟨fun e σ x hx => step_processedFiles_mono e σ x hx,
    fun evs p => okCount_le_one p evs svcInit svcInv_init, by decide⟩

/-- Witness for C5: a processed path stays processed across a step. -/
theorem processing_idempotent_per_path_wit :
    "/captures/a.png" ∈ (svcStep (SvcEv.finish true)
        ⟨[], ["/captures/a.png"], false, 0, none⟩).1.processedFiles :=
  processing_idempotent_per_path.1 (SvcEv.finish true)
    ⟨[], ["/captures/a.png"], false, 0, none⟩ "/captures/a.png" (by decide)

/-- C6: when the awaited processing of the active file rejects, the worker
catches the error at the per-file scope: processedFiles is unchanged and
the path is not marked processed, exactly one failure is logged, the loop
continues with the first unprocessed queued entry (or exits cleanly when
none remains), and the machine invariant is preserved, so the error never
escapes the worker loop. -/
theorem worker_catches_per_file_error (σ : SvcState) (p : String)
    (hinv : SvcInv σ) (hact : σ.activeFile = some p) :
    (onFinish false σ).1.processedFiles = σ.processedFiles
    ∧ p ∉ (onFinish false σ).1.processedFiles
    ∧ (onFinish false σ).2 = [WOut.processFailed p]
    ∧ (onFinish false σ).1.activeFile
        = (drainToNext σ.processedFiles σ.processingQueue).1
    ∧ (onFinish false σ).1.isProcessing
        = ((drainToNext σ.processedFiles σ.processingQueue).1).isSome
    ∧ SvcInv (onFinish false σ).1 := by
  have hp : p ∉ σ.processedFiles := by
    have hall := hinv.2.2
    rw [hact] at hall
    simpa [Option.all] using hall
  have key : (onFinish false σ).1.processedFiles = σ.processedFiles
      ∧ (onFinish false σ).2 = [WOut.processFailed p]
      ∧ (onFinish false σ).1.activeFile
          = (drainToNext σ.processedFiles σ.processingQueue).1
      ∧ (onFinish false σ).1.isProcessing
          = ((drainToNext σ.processedFiles σ.processingQueue).1).isSome := by
    simp only [onFinish, hact, Bool.false_eq_true, if_false]
    rcases hd : drainToNext σ.processedFiles σ.processingQueue with ⟨o, rest⟩
    cases o <;> simp [hd]
  exact ⟨key.1, key.1 ▸ hp, key.2.1, key.2.2.1, key.2.2.2,
    svcInv_onFinish false hinv⟩

/-- Witness for C6 on a concrete state with one queued entry. -/
theorem worker_catches_per_file_error_wit :
    (onFinish false ⟨["/captures/b.png"], [], true, 1,
        some "/captures/a.png"⟩).1.processedFiles = []
    ∧ (onFinish false ⟨["/captures/b.png"], [], true, 1,
        some "/captures/a.png"⟩).2 = [WOut.processFailed "/captures/a.png"] :=
  ⟨(worker_catches_per_file_error _ "/captures/a.png" (by decide) rfl).1,
   (worker_catches_per_file_error _ "/captures/a.png" (by decide) rfl).2.2.1⟩

/-- C9: the queue worker is single and strictly sequential: every reachable
state satisfies the machine invariant, so the number of running worker
loops never exceeds one; a dequeue always removes the first unprocessed
entry in FIFO order, leaving a suffix of the queue; and an enqueue arriving
while the worker runs only appends to the pending list, changing neither
the active file nor the number of workers. -/
theorem queue_single_worker_fifo :
    (∀ evs : List SvcEv, SvcInv (svcRun evs).1)
    ∧ (∀ evs : List SvcEv, (svcRun evs).1.workers ≤ 1)
    ∧ (∀ (processed q : List String) (p : String) (rest : List String),
        drainToNext processed q = (some p, rest) →
        ∃ pre, q = pre ++ p :: rest ∧ (∀ x ∈ pre, x ∈ processed) ∧ p ∉ processed)
    ∧ (∀ (σ : SvcState) (p : String), σ.isProcessing = true →
        onAdd p σ = { σ with processingQueue :=
          if (isImageFile p && !(σ.processedFiles.contains p))
          then σ.processingQueue ++ [p] else σ.processingQueue })
    ∧ (∀ (σ : SvcState) (p q : String), σ.isProcessing = true →
        σ.activeFile = some q →
        (onAdd p σ).activeFile = some q ∧ (onAdd p σ).workers = σ.workers) := by
  have hreach : ∀ evs : List SvcEv, SvcInv (svcRun evs).1 :=
    fun evs => svcInv_runFrom evs svcInv_init
  refine ⟨hreach, ?_, fun processed q p rest hres =>
      drainToNext_some_spec processed q p rest hres,
    fun σ p hproc => onAdd_while_processing σ p hproc, ?_⟩
  · intro evs
    rw [(hreach evs).1]
    split <;> decide
  · intro σ p q hproc hact
    rw [onAdd_while_processing σ p hproc]
    exact ⟨hact, rfl⟩

/-- Witness for C9: no worker at start, and an add event during a running
worker leaves the active file untouched. -/
theorem queue_single_worker_fifo_wit :
    (svcRun []).1.workers ≤ 1
    ∧ (onAdd "/captures/b.png"
        ⟨["/captures/q.png"], [], true, 1, some "/captures/a.png"⟩).activeFile
      = some "/captures/a.png" :=
  ⟨queue_single_worker_fifo.2.1 [],
   (queue_single_worker_fifo.2.2.2.2
      ⟨["/captures/q.png"], [], true, 1, some "/captures/a.png"⟩
      "/captures/b.png" "/captures/a.png" rfl rfl).1⟩

end Confluences

